import Mathlib

/-!
# Verification of the auto-trader backtesting engine

Shallow embedding of the backtesting core of the repository:
* `src/strategies/type` — the `Candle` and `Strategy` interfaces;
* `src/backtesting/Backtester.ts` — the `Backtester` class (candle walk,
  trade lifecycle, equity/drawdown tracking, result reduction);
* `src/backtesting/BacktestDataProvider.ts` — CSV candle persistence.

JavaScript numbers are modelled as exact rationals (`ℚ`); the CSV text layer
is modelled at field level (one typed row per data line, the header and the
comma/newline framing represented structurally), since for finite doubles the
JS number↔string codec used by `saveCandles`/`loadCandles` (template-literal
printing, `parseInt`/`parseFloat`) is an exact round trip.  `async` strategy
calls are awaited to completion by the engine before the next candle, so they
are modelled as pure functions.
-/

namespace AutoTrader

/-- `interface Candle` (src/strategies/type): one OHLCV bar.  The source field
`open` is a Lean keyword, embedded here as `open_`.  `volume` is optional in
the source (`volume?: number`). -/
structure Candle where
  timestamp : Int
  open_ : ℚ
  high : ℚ
  low : ℚ
  close : ℚ
  volume : Option ℚ
deriving Repr, DecidableEq, Inhabited

/-- `interface Strategy` (src/strategies/type), as consumed by the engine.
`shouldEnter`/`shouldExit` are awaited to completion, hence pure here;
`execute` only performs order side effects (a no-op against the simulation
state), so it has no footprint in the embedding. -/
structure Strategy where
  name : String
  shouldEnter : List Candle → Bool
  shouldExit : List Candle → ℚ → Bool

/-- The trade side; the source uses the string union `"long" | "short"`. -/
inductive TradeSide where
  | long
  | short
deriving Repr, DecidableEq

/-- `interface BacktestTrade` (Backtester.ts): one round-trip position.
Optional fields (`exitTime?`, `exitPrice?`, `profit?`, `profitPercent?`) are
absent while the trade is open. -/
structure BacktestTrade where
  entryTime : Int
  exitTime : Option Int := none
  entryPrice : ℚ
  exitPrice : Option ℚ := none
  side : TradeSide
  profit : Option ℚ := none
  profitPercent : Option ℚ := none
deriving Repr, DecidableEq

/-- `interface BacktestResult` (Backtester.ts). -/
structure BacktestResult where
  market : String
  strategyName : String
  totalTrades : Nat
  winningTrades : Nat
  losingTrades : Nat
  winRate : ℚ
  profitFactor : ℚ
  netProfit : ℚ
  maxDrawdown : ℚ
  trades : List BacktestTrade
deriving Repr, DecidableEq

/-- `Backtester.handleEntry` (Backtester.ts lines 57-71): open a long trade at
the candle's close. -/
def handleEntry (candle : Candle) : BacktestTrade :=
  { entryTime := candle.timestamp
    entryPrice := candle.close
    side := TradeSide.long }

/-- `Backtester.handleExit` (Backtester.ts lines 76-105): close `trade` at the
candle's close, computing the commission-adjusted return and profit. -/
def handleExit (trade : BacktestTrade) (candle : Candle) (capital commission : ℚ) :
    BacktestTrade :=
  let exitPrice := candle.close
  let grossProfit :=
    match trade.side with
    | TradeSide.long => (exitPrice - trade.entryPrice) / trade.entryPrice
    | TradeSide.short => (trade.entryPrice - exitPrice) / trade.entryPrice
  let netProfit := grossProfit - commission * 2
  { trade with
    exitTime := some candle.timestamp
    exitPrice := some exitPrice
    profitPercent := some netProfit
    profit := some (capital * netProfit) }

/-- `Backtester.calculateResults` (Backtester.ts lines 110-141): reduce a trade
ledger to the summary record.  `t.profitPercent || 0` / `t.profit || 0` are
`Option.getD 0` (the JS `||` also maps `0` to `0`, so the defaulting agrees). -/
def calculateResults (trades : List BacktestTrade) (market strategyName : String)
    (maxDrawdown : ℚ) : BacktestResult :=
  let winningTrades := (trades.filter (fun t => t.profitPercent.getD 0 > 0)).length
  let totalProfit := (trades.map (fun t => t.profit.getD 0)).sum
  let grossProfit :=
    ((trades.filter (fun t => t.profitPercent.getD 0 > 0)).map (fun t => t.profit.getD 0)).sum
  let grossLoss :=
    |((trades.filter (fun t => t.profitPercent.getD 0 ≤ 0)).map (fun t => t.profit.getD 0)).sum|
  { market := market
    strategyName := strategyName
    totalTrades := trades.length
    winningTrades := winningTrades
    losingTrades := trades.length - winningTrades
    winRate := if trades.length > 0 then (winningTrades : ℚ) / (trades.length : ℚ) else 0
    profitFactor := if grossLoss > 0 then grossProfit / grossLoss else 0
    netProfit := totalProfit
    maxDrawdown := maxDrawdown
    trades := trades }

/-- The engine-local mutable state of one `runBacktest` walk (Backtester.ts
lines 160-164): the ledger, the currently open trade (at most one, hence an
`Option`), and the equity/drawdown tracking variables. -/
structure WalkState where
  trades : List BacktestTrade
  currentTrade : Option BacktestTrade
  equity : ℚ
  highWaterMark : ℚ
  drawdown : ℚ
deriving Repr, DecidableEq

/-- Initial walk state (Backtester.ts lines 160-164). -/
def initWalkState (capital : ℚ) : WalkState :=
  { trades := []
    currentTrade := none
    equity := capital
    highWaterMark := capital
    drawdown := 0 }

/-- `lookbackPeriod` (Backtester.ts line 167): candles supplied to the
strategy at each decision point. -/
def lookbackPeriod : Nat := 100

/-- `Array.prototype.slice(start, stop)` for the in-range, non-negative
arguments the engine uses: the elements at indices `start ≤ j < stop`. -/
def jsSlice (l : List α) (start stop : Nat) : List α :=
  (l.drop start).take (stop - start)

/-- The lookback slice at step `i` (Backtester.ts line 171):
`candles.slice(i - lookbackPeriod, i + 1)`. -/
def lookbackCandlesAt (candles : List Candle) (i : Nat) : List Candle :=
  jsSlice candles (i - lookbackPeriod) (i + 1)

/-- One iteration of the candle loop (Backtester.ts lines 169-211), as a state
transformer on `WalkState`. -/
def walkStep (strategy : Strategy) (capital commission : ℚ) (s : WalkState)
    (lookbackCandles : List Candle) (currentCandle : Candle) : WalkState :=
  match s.currentTrade with
  | none =>
      if strategy.shouldEnter lookbackCandles then
        { s with currentTrade := some (handleEntry currentCandle) }
      else s
  | some t =>
      if t.exitTime = none then
        if strategy.shouldExit lookbackCandles t.entryPrice then
          let completedTrade := handleExit t currentCandle capital commission
          let equity := s.equity + completedTrade.profit.getD 0
          let highWaterMark :=
            if equity > s.highWaterMark then equity else s.highWaterMark
          let drawdown :=
            if equity > s.highWaterMark then s.drawdown
            else if (s.highWaterMark - equity) / s.highWaterMark > s.drawdown then
              (s.highWaterMark - equity) / s.highWaterMark
            else s.drawdown
          { trades := s.trades ++ [completedTrade]
            currentTrade := none
            equity := equity
            highWaterMark := highWaterMark
            drawdown := drawdown }
        else s
      else s

/-- The (lookback slice, current candle) pair fed to each loop iteration, for
`i` from `lookbackPeriod` to `candles.length - 1` (Backtester.ts line 169). -/
def walkInputs (candles : List Candle) : List (List Candle × Candle) :=
  (List.range' lookbackPeriod (candles.length - lookbackPeriod)).map
    (fun i => (lookbackCandlesAt candles i, candles.getD i default))

/-- The whole candle loop of `runBacktest` (Backtester.ts lines 169-211). -/
def runWalk (strategy : Strategy) (capital commission : ℚ) (candles : List Candle) :
    WalkState :=
  (walkInputs candles).foldl
    (fun s p => walkStep strategy capital commission s p.1 p.2)
    (initWalkState capital)

/-- One data line of the persisted CSV file (BacktestDataProvider.ts line 34:
header `timestamp,open,high,low,close,volume`), modelled at field level: the
six comma-separated fields of one row, already as the numbers the JS
number↔string codec round-trips exactly. -/
structure CsvRow where
  timestamp : Int
  open_ : ℚ
  high : ℚ
  low : ℚ
  close : ℚ
  volume : ℚ
deriving Repr, DecidableEq

/-- The data directory: one CSV file per key, keyed by file name.  Writing
prepends (the newest entry shadows older ones, as `fs.writeFileSync`
overwrites), lookup finds the newest. -/
abbrev CandleStore := List (String × List CsvRow)

/-- JS `String.prototype.replace` with the string pattern `"-"`: only the
first occurrence is replaced. -/
def replaceFirstDash : List Char → List Char
  | [] => []
  | c :: cs => if c = '-' then '_' :: cs else c :: replaceFirstDash cs

/-- `BacktestDataProvider.getCandleFilePath` (lines 21-26):
`` `${market.replace("-", "_")}_${interval}min.csv` `` (the data-directory
prefix is a deployment constant, dropped from the key). -/
def getCandleFilePath (market : String) (interval : Nat) : String :=
  String.mk (replaceFirstDash market.data) ++ "_" ++ toString interval ++ "min.csv"

/-- `BacktestDataProvider.saveCandles` (lines 31-46): write one row per candle
under the key's file, `volume` defaulting to `0` when absent
(`candle.volume || 0`), overwriting any prior file for that key. -/
def saveCandles (store : CandleStore) (market : String) (interval : Nat)
    (candles : List Candle) : CandleStore :=
  (getCandleFilePath market interval,
    candles.map (fun c =>
      ({ timestamp := c.timestamp
         open_ := c.open_
         high := c.high
         low := c.low
         close := c.close
         volume := c.volume.getD 0 } : CsvRow))) :: store

/-- The failure of `loadCandles`: the only `throw` in the source is the
missing-file check (lines 54-58); parsed rows are returned without any
validation. -/
inductive DataError where
  | notFound
deriving Repr, DecidableEq

/-- `BacktestDataProvider.loadCandles` (lines 51-77): fail if no file exists
for the key, else map every data row straight into a `Candle` — the source
performs no validation of the parsed fields. -/
def loadCandles (store : CandleStore) (market : String) (interval : Nat) :
    Except DataError (List Candle) :=
  match store.lookup (getCandleFilePath market interval) with
  | none => Except.error DataError.notFound
  | some rows =>
      Except.ok (rows.map (fun r =>
        ({ timestamp := r.timestamp
           open_ := r.open_
           high := r.high
           low := r.low
           close := r.close
           volume := some r.volume } : Candle)))

/-- The failure of `runBacktest`: `loadCandleData` catches every load error
(including its own empty-data throw) and rethrows one generic
`"백테스트 데이터가 없습니다..."` error (Backtester.ts lines 39-52). -/
inductive BacktestError where
  | noData
deriving Repr, DecidableEq

/-- `Backtester.loadCandleData` (lines 39-52): load; if the load throws or the
result is empty, throw the generic no-data error (the inner empty-data throw
is itself caught by the surrounding `catch` and collapsed into it). -/
def loadCandleData (store : CandleStore) (market : String) (interval : Nat) :
    Except BacktestError (List Candle) :=
  match loadCandles store market interval with
  | Except.error _ => Except.error BacktestError.noData
  | Except.ok candles =>
      if candles.isEmpty then Except.error BacktestError.noData
      else Except.ok candles

/-- `Backtester.runBacktest` (lines 146-215).  Source defaults:
`capital = 1000000`, `commission = 0.0005`. -/
def runBacktest (strategy : Strategy) (market : String) (interval : Nat)
    (capital commission : ℚ) (store : CandleStore) :
    Except BacktestError BacktestResult :=
  match loadCandleData store market interval with
  | Except.error e => Except.error e
  | Except.ok candles =>
      let finalState := runWalk strategy capital commission candles
      Except.ok (calculateResults finalState.trades market strategy.name
        finalState.drawdown)

/-- Equality of `Except` results is decidable (used to evaluate the engine at
concrete inputs). -/
instance {ε α : Type} [DecidableEq ε] [DecidableEq α] : DecidableEq (Except ε α) := fun a b =>
  match a, b with
  | Except.error e, Except.error f =>
      if h : e = f then isTrue (by rw [h])
      else isFalse (by intro hh; cases hh; exact h rfl)
  | Except.ok x, Except.ok y =>
      if h : x = y then isTrue (by rw [h])
      else isFalse (by intro hh; cases hh; exact h rfl)
  | Except.error _, Except.ok _ => isFalse (by intro hh; cases hh)
  | Except.ok _, Except.error _ => isFalse (by intro hh; cases hh)

/-! ## Concrete inputs used by witnesses and counterexamples -/

/-- A strategy that always wants to enter and always wants to exit. -/
def alwaysStrategy : Strategy :=
  { name := "always", shouldEnter := fun _ => true, shouldExit := fun _ _ => true }

/-- A flat candle whose four prices all equal `p`. -/
def constCandle (p : ℚ) : Candle :=
  { timestamp := 0, open_ := p, high := p, low := p, close := p, volume := some 0 }

/-- 104 candles: 101 at close 100, then closes 1, 100, 1 — with `alwaysStrategy`
the walk enters at index 100 and 102 (close 100) and exits at 101 and 103
(close 1), losing 99% twice. -/
def crashCandles : List Candle :=
  List.replicate 100 (constCandle 100) ++
    [constCandle 100, constCandle 1, constCandle 100, constCandle 1]

/-- A single well-formed stored row. -/
def sampleRow : CsvRow :=
  { timestamp := 5, open_ := 1, high := 2, low := 1, close := 1, volume := 3 }

/-- A store holding exactly one candle for (`"KRW-BTC"`, 1). -/
def singleCandleStore : CandleStore := [("KRW_BTC_1min.csv", [sampleRow])]

/-- The candle `loadCandles` reads back from `sampleRow`. -/
def sampleCandle : Candle :=
  { timestamp := 5, open_ := 1, high := 2, low := 1, close := 1, volume := some 3 }

/-! ## C3 — single-position invariant

`WalkState.currentTrade` is an `Option`, so the engine structurally holds at
most one open trade; the content of the claim is the transition discipline,
proved below for every loop iteration. -/

/-- C3: at every step of the candle walk the engine holds at most one open
trade: a step either leaves the open slot unchanged, opens a trade only from
the empty slot, or clears the open slot by closing exactly that trade into the
ledger — it never replaces one open trade by another. -/
theorem walkStep_single_position (strategy : Strategy) (capital commission : ℚ)
    (s : WalkState) (lb : List Candle) (c : Candle) :
    (s.currentTrade = none ∧
      ((walkStep strategy capital commission s lb c).currentTrade = none ∨
       (walkStep strategy capital commission s lb c).currentTrade = some (handleEntry c))) ∨
    (∃ t, s.currentTrade = some t ∧
      ((walkStep strategy capital commission s lb c).currentTrade = some t ∨
       ((walkStep strategy capital commission s lb c).currentTrade = none ∧
        (walkStep strategy capital commission s lb c).trades =
          s.trades ++ [handleExit t c capital commission]))) := by
  cases h : s.currentTrade with
  | none =>
      left
      refine ⟨rfl, ?_⟩
      simp only [walkStep, h]
      split <;> simp [h]
  | some t =>
      right
      refine ⟨t, rfl, ?_⟩
      simp only [walkStep, h]
      split
      · split
        · right; exact ⟨rfl, rfl⟩
        · left; exact h
      · left; exact h

/-! ## C4 — the lookback slice -/

/-- C4: for `lookbackPeriod ≤ i < candles.length`, the slice handed to the
strategy at step `i` is exactly `candles[i-L .. i]` inclusive: it has length
`L + 1`, its element at offset `k` is the candle at index `i - L + k ≤ i`
(so it never contains a candle with index above `i`), and its last element
(offset `L`) is the current candle at index `i`. -/
theorem lookbackCandlesAt_no_lookahead (candles : List Candle) (i : Nat)
    (h1 : lookbackPeriod ≤ i) (h2 : i < candles.length) :
    (lookbackCandlesAt candles i).length = lookbackPeriod + 1 ∧
    (∀ k, k < lookbackPeriod + 1 →
      (lookbackCandlesAt candles i).getD k default =
        candles.getD (i - lookbackPeriod + k) default ∧
      i - lookbackPeriod + k ≤ i) ∧
    (lookbackCandlesAt candles i).getD lookbackPeriod default = candles.getD i default := by
  have hstop : i + 1 - (i - lookbackPeriod) = lookbackPeriod + 1 := by omega
  have helem : ∀ k, k < lookbackPeriod + 1 →
      (lookbackCandlesAt candles i).getD k default =
        candles.getD (i - lookbackPeriod + k) default := by
    intro k hk
    simp only [lookbackCandlesAt, jsSlice, hstop, List.getD_eq_getElem?_getD,
      List.getElem?_take, List.getElem?_drop, hk, if_pos]
  refine ⟨?_, fun k hk => ⟨helem k hk, by omega⟩, ?_⟩
  · simp only [lookbackCandlesAt, jsSlice, hstop, List.length_take, List.length_drop]
    omega
  · have h := helem lookbackPeriod (Nat.lt_succ_self _)
    rwa [Nat.sub_add_cancel h1] at h

/-- C4 witness: the slice properties at the concrete walk step `i = 100` of the
104-candle sequence `crashCandles`. -/
theorem lookbackCandlesAt_no_lookahead_witness :
    (lookbackCandlesAt crashCandles 100).length = lookbackPeriod + 1 ∧
    (∀ k, k < lookbackPeriod + 1 →
      (lookbackCandlesAt crashCandles 100).getD k default =
        crashCandles.getD (100 - lookbackPeriod + k) default ∧
      100 - lookbackPeriod + k ≤ 100) ∧
    (lookbackCandlesAt crashCandles 100).getD lookbackPeriod default =
      crashCandles.getD 100 default :=
  lookbackCandlesAt_no_lookahead crashCandles 100 (by simp [lookbackPeriod])
    (by simp [crashCandles])

/-! ## C5 — commission arithmetic at exit -/

/-- C5: for a long trade, `handleExit` sets
`profitPercent = (exitPrice - entryPrice)/entryPrice - 2·commission`; when the
exit price equals the entry price this is exactly `-2·commission`, and
`profit = capital · (-2·commission)`. -/
theorem handleExit_commission (trade : BacktestTrade) (candle : Candle)
    (capital commission : ℚ) (hside : trade.side = TradeSide.long) :
    (handleExit trade candle capital commission).profitPercent =
      some ((candle.close - trade.entryPrice) / trade.entryPrice - 2 * commission) ∧
    (candle.close = trade.entryPrice →
      (handleExit trade candle capital commission).profitPercent =
        some (-(2 * commission)) ∧
      (handleExit trade candle capital commission).profit =
        some (capital * (-(2 * commission)))) := by
  refine ⟨?_, fun hflat => ?_⟩
  · simp only [handleExit, hside]
    rw [mul_comm]
  · constructor
    · simp only [handleExit, hside, hflat]
      rw [sub_self, zero_div, zero_sub, mul_comm]
    · simp only [handleExit, hside, hflat]
      rw [sub_self, zero_div, zero_sub]
      congr 1
      ring

/-- C5 witness: a long trade entered at price 50 and exited flat at price 50
with commission 1/1000 on capital 10. -/
theorem handleExit_commission_witness :
    (handleExit { entryTime := 0, entryPrice := 50, side := TradeSide.long }
        (constCandle 50) 10 (1 / 1000)).profitPercent =
      some (((constCandle 50).close - 50) / 50 - 2 * (1 / 1000)) ∧
    ((constCandle 50).close = 50 →
      (handleExit { entryTime := 0, entryPrice := 50, side := TradeSide.long }
          (constCandle 50) 10 (1 / 1000)).profitPercent = some (-(2 * (1 / 1000))) ∧
      (handleExit { entryTime := 0, entryPrice := 50, side := TradeSide.long }
          (constCandle 50) 10 (1 / 1000)).profit = some (10 * (-(2 * (1 / 1000))))) :=
  handleExit_commission { entryTime := 0, entryPrice := 50, side := TradeSide.long }
    (constCandle 50) 10 (1 / 1000) rfl

/-! ## C7 — save/load round trip -/

/-- C7: loading after saving returns the same sequence, order and values
preserved exactly, with `volume` defaulting to `0` where it was absent on
save; in particular when every candle carries a volume the loaded sequence is
literally the saved one. -/
theorem loadCandles_saveCandles (store : CandleStore) (market : String) (interval : Nat)
    (candles : List Candle) :
    loadCandles (saveCandles store market interval candles) market interval =
      Except.ok (candles.map (fun c => { c with volume := some (c.volume.getD 0) })) ∧
    ((∀ c ∈ candles, c.volume.isSome) →
      loadCandles (saveCandles store market interval candles) market interval =
        Except.ok candles) := by
  have hfirst :
      loadCandles (saveCandles store market interval candles) market interval =
        Except.ok (candles.map (fun c => { c with volume := some (c.volume.getD 0) })) := by
    simp only [loadCandles, saveCandles, List.lookup, beq_self_eq_true, List.map_map]
    rfl
  refine ⟨hfirst, fun hvol => ?_⟩
  rw [hfirst]
  congr 1
  have : ∀ c ∈ candles, ({ c with volume := some (c.volume.getD 0) } : Candle) = c := by
    intro c hc
    obtain ⟨v, hv⟩ := Option.isSome_iff_exists.mp (hvol c hc)
    cases c
    simp_all
  rw [List.map_congr_left this, List.map_id']

/-- C7 witness: the round trip on a concrete one-candle sequence whose volume
is present. -/
theorem loadCandles_saveCandles_witness :
    loadCandles (saveCandles [] "KRW-BTC" 1 [sampleCandle]) "KRW-BTC" 1 =
      Except.ok ([sampleCandle].map (fun c => { c with volume := some (c.volume.getD 0) })) ∧
    ((∀ c ∈ [sampleCandle], c.volume.isSome) →
      loadCandles (saveCandles [] "KRW-BTC" 1 [sampleCandle]) "KRW-BTC" 1 =
        Except.ok [sampleCandle]) :=
  loadCandles_saveCandles [] "KRW-BTC" 1 [sampleCandle]

/-! ## C8 — load-time behavior

The source `loadCandles` contains exactly one failure path, the missing-file
check; the parsed rows are returned without any validation, so no
`CorruptDataError` exists and malformed candles (e.g. `high < low`) are
returned silently rather than rejected. -/

/-- C8 (amended): `loadCandles` fails exactly when no stored data exists for
the key; otherwise it returns every stored record mapped straight into a
`Candle`, with no validation step in between. -/
theorem loadCandles_only_missing_fails (store : CandleStore) (market : String)
    (interval : Nat) :
    (store.lookup (getCandleFilePath market interval) = none →
      loadCandles store market interval = Except.error DataError.notFound) ∧
    (∀ rows, store.lookup (getCandleFilePath market interval) = some rows →
      loadCandles store market interval =
        Except.ok (rows.map (fun r =>
          ({ timestamp := r.timestamp, open_ := r.open_, high := r.high, low := r.low,
             close := r.close, volume := some r.volume } : Candle)))) := by
  constructor
  · intro h
    simp [loadCandles, h]
  · intro rows h
    simp [loadCandles, h]

/-- A stored row with `high < low`. -/
def malformedRow : CsvRow :=
  { timestamp := 0, open_ := 1, high := 1, low := 5, close := 1, volume := 0 }

/-- A store whose only file holds the malformed row. -/
def malformedStore : CandleStore := [("KRW_BTC_1min.csv", [malformedRow])]

/-- The malformed candle as `loadCandles` returns it. -/
def malformedCandle : Candle :=
  { timestamp := 0, open_ := 1, high := 1, low := 5, close := 1, volume := some 0 }

/-- C8 counterexample: loading a stored record with `high < low` does not fail
with any error — the malformed candle is returned as a successful result. -/
theorem loadCandles_returns_malformed :
    loadCandles malformedStore "KRW-BTC" 1 = Except.ok [malformedCandle] ∧
    malformedCandle.high < malformedCandle.low := by
  constructor
  · rfl
  · norm_num [malformedCandle]

/-- C8 witness: the two branches of `loadCandles_only_missing_fails` at
concrete stores — the empty store has no file for the key, and
`singleCandleStore` stores `[sampleRow]` under it. -/
theorem loadCandles_only_missing_fails_witness :
    loadCandles ([] : CandleStore) "KRW-BTC" 1 = Except.error DataError.notFound ∧
    loadCandles singleCandleStore "KRW-BTC" 1 = Except.ok [sampleCandle] := by
  constructor
  · exact (loadCandles_only_missing_fails [] "KRW-BTC" 1).1 rfl
  · exact (loadCandles_only_missing_fails singleCandleStore "KRW-BTC" 1).2 [sampleRow] rfl

/-! ## C10 — losing-trade count -/

/-- The two complementary filters of a list split its length. -/
theorem length_filter_add_length_filter_not (l : List α) (p : α → Bool) :
    (l.filter p).length + (l.filter (fun a => !(p a))).length = l.length := by
  induction l with
  | nil => rfl
  | cons a l ih =>
      by_cases h : p a <;> simp [List.filter_cons, h] <;> omega

/-- C10: `losingTrades = totalTrades - winningTrades`, so
`winningTrades + losingTrades = totalTrades`; winning requires strictly
positive `profitPercent`, so the losing count is exactly the count of trades
with `profitPercent ≤ 0` — a zero-`profitPercent` trade counts as losing (and
sits in the `profitPercent ≤ 0` filter that feeds `grossLoss`). -/
theorem calculateResults_losing_count (trades : List BacktestTrade)
    (market strategyName : String) (maxDrawdown : ℚ) :
    (calculateResults trades market strategyName maxDrawdown).losingTrades =
      (calculateResults trades market strategyName maxDrawdown).totalTrades -
        (calculateResults trades market strategyName maxDrawdown).winningTrades ∧
    (calculateResults trades market strategyName maxDrawdown).winningTrades +
        (calculateResults trades market strategyName maxDrawdown).losingTrades =
      (calculateResults trades market strategyName maxDrawdown).totalTrades ∧
    (calculateResults trades market strategyName maxDrawdown).winningTrades =
      (trades.filter (fun t => 0 < t.profitPercent.getD 0)).length ∧
    (calculateResults trades market strategyName maxDrawdown).losingTrades =
      (trades.filter (fun t => t.profitPercent.getD 0 ≤ 0)).length := by
  have hsplit := length_filter_add_length_filter_not trades
    (fun t => t.profitPercent.getD 0 > 0)
  have hle := List.length_filter_le (fun t => t.profitPercent.getD 0 > 0) trades
  have hcompl : trades.filter (fun t => !(t.profitPercent.getD 0 > 0)) =
      trades.filter (fun t => t.profitPercent.getD 0 ≤ 0) := by
    refine List.filter_congr fun t _ => ?_
    rw [Bool.eq_iff_iff]
    simp [not_lt]
  rw [hcompl] at hsplit
  refine ⟨rfl, ?_, rfl, ?_⟩
  · simp only [calculateResults]
    omega
  · simp only [calculateResults]
    omega

/-! ## C2 — result arithmetic

The spec words `grossProfit`/`grossLoss` as sums over the *profit* sign; the
code filters on the *profitPercent* sign and takes one absolute value of the
loss sum.  The two agree for every ledger the engine reduces, because
`handleExit` always sets `profit = capital * profitPercent` with the run's
(positive) capital — the hypothesis under which C2 is proved. -/

/-- `grossProfit` as the spec words it: the sum of the positive trade
profits. -/
def grossProfitSpec (trades : List BacktestTrade) : ℚ :=
  ((trades.filter (fun t => 0 < t.profit.getD 0)).map (fun t => t.profit.getD 0)).sum

/-- `grossLoss` as the spec words it: the sum of the absolute values of the
negative trade profits. -/
def grossLossSpec (trades : List BacktestTrade) : ℚ :=
  ((trades.filter (fun t => t.profit.getD 0 < 0)).map (fun t => -t.profit.getD 0)).sum

/-- A list of non-positive rationals has non-positive sum. -/
theorem list_sum_nonpos (l : List ℚ) (h : ∀ x ∈ l, x ≤ 0) : l.sum ≤ 0 := by
  induction l with
  | nil => simp
  | cons a l ih =>
      simp only [List.sum_cons]
      have ha := h a (List.mem_cons_self a l)
      have hl := ih fun x hx => h x (List.mem_cons_of_mem a hx)
      linarith

/-- The absolute value of the sum over the `d ≤ 0` filter is the sum of the
absolute values over the `d < 0` filter (the `d = 0` terms contribute
nothing). -/
theorem abs_sum_filter_nonpos (l : List α) (d : α → ℚ) :
    |((l.filter (fun t => d t ≤ 0)).map d).sum| =
      ((l.filter (fun t => d t < 0)).map (fun t => -d t)).sum := by
  induction l with
  | nil => simp
  | cons a l ih =>
      have hsum_nonpos : ((l.filter (fun t => d t ≤ 0)).map d).sum ≤ 0 := by
        refine list_sum_nonpos _ fun x hx => ?_
        obtain ⟨t, ht, rfl⟩ := List.mem_map.mp hx
        simpa using (List.mem_filter.mp ht).2
      by_cases h : d a ≤ 0
      · rcases lt_or_eq_of_le h with hlt | heq
        · rw [List.filter_cons_of_pos (by simpa using h),
            List.filter_cons_of_pos (by simpa using hlt)]
          simp only [List.map_cons, List.sum_cons]
          rw [abs_of_nonpos hsum_nonpos] at ih
          rw [abs_of_nonpos (by linarith)]
          linarith
        · rw [List.filter_cons_of_pos (by simpa using h),
            List.filter_cons_of_neg (by simp [heq])]
          simp only [List.map_cons, List.sum_cons, heq, zero_add]
          exact ih
      · rw [List.filter_cons_of_neg (by simpa using h),
          List.filter_cons_of_neg (by simp; linarith [not_le.mp h])]
        exact ih

/-- The spec's `grossLoss` is non-negative. -/
theorem grossLossSpec_nonneg (trades : List BacktestTrade) : 0 ≤ grossLossSpec trades := by
  refine List.sum_nonneg fun x hx => ?_
  obtain ⟨t, ht, rfl⟩ := List.mem_map.mp hx
  have := (List.mem_filter.mp ht).2
  simp only [decide_eq_true_eq] at this
  linarith

/-- C2: for every ledger whose trades carry `profit = capital · profitPercent`
with the run's positive capital (as `handleExit` always produces):
`netProfit` is the sum of the trade profits; `winningTrades` counts the trades
with strictly positive `profitPercent`; `winRate = winningTrades/totalTrades`
(`0` when `totalTrades = 0`); and `profitFactor = grossProfit/grossLoss` with
the spec's sign-of-profit sums, defined as `0` when `grossLoss = 0`. -/
theorem calculateResults_arithmetic (trades : List BacktestTrade)
    (market strategyName : String) (maxDrawdown capital : ℚ) (hcap : 0 < capital)
    (hp : ∀ t ∈ trades, t.profit.getD 0 = capital * t.profitPercent.getD 0) :
    (calculateResults trades market strategyName maxDrawdown).netProfit =
      (trades.map (fun t => t.profit.getD 0)).sum ∧
    (calculateResults trades market strategyName maxDrawdown).winningTrades =
      (trades.filter (fun t => 0 < t.profitPercent.getD 0)).length ∧
    (calculateResults trades market strategyName maxDrawdown).winRate =
      (if trades.length = 0 then 0
       else ((calculateResults trades market strategyName maxDrawdown).winningTrades : ℚ) /
         (trades.length : ℚ)) ∧
    (calculateResults trades market strategyName maxDrawdown).profitFactor =
      (if grossLossSpec trades = 0 then 0
       else grossProfitSpec trades / grossLossSpec trades) := by
  have hsign : ∀ t ∈ trades, (0 < t.profitPercent.getD 0 ↔ 0 < t.profit.getD 0) := by
    intro t ht
    rw [hp t ht]
    exact (mul_pos_iff_of_pos_left hcap).symm
  have hfpos : trades.filter (fun t => t.profitPercent.getD 0 > 0) =
      trades.filter (fun t => 0 < t.profit.getD 0) := by
    refine List.filter_congr fun t ht => ?_
    rw [Bool.eq_iff_iff]
    simpa using hsign t ht
  have hfnonpos : trades.filter (fun t => t.profitPercent.getD 0 ≤ 0) =
      trades.filter (fun t => t.profit.getD 0 ≤ 0) := by
    refine List.filter_congr fun t ht => ?_
    rw [Bool.eq_iff_iff]
    simp only [decide_eq_true_eq, ← not_lt]
    exact not_congr (hsign t ht)
  have hgp : ((trades.filter (fun t => t.profitPercent.getD 0 > 0)).map
      (fun t => t.profit.getD 0)).sum = grossProfitSpec trades := by
    rw [hfpos]; rfl
  have hgl : |((trades.filter (fun t => t.profitPercent.getD 0 ≤ 0)).map
      (fun t => t.profit.getD 0)).sum| = grossLossSpec trades := by
    rw [hfnonpos]
    exact abs_sum_filter_nonpos trades (fun t => t.profit.getD 0)
  refine ⟨rfl, rfl, ?_, ?_⟩
  · simp only [calculateResults]
    rcases Nat.eq_zero_or_pos trades.length with hz | hpos
    · rw [if_neg (by omega), if_pos hz]
    · rw [if_pos hpos, if_neg (by omega)]
  · simp only [calculateResults]
    rw [hgl, hgp]
    rcases eq_or_lt_of_le (grossLossSpec_nonneg trades) with hz | hpos
    · simp [← hz]
    · rw [if_pos hpos, if_neg (by linarith)]

/-- A concrete ledger as the engine produces it with capital 2: a 100% win
(profit 2), a total loss (profit −2), and a flat trade (profit 0). -/
def sampleLedger : List BacktestTrade :=
  [{ entryTime := 0, entryPrice := 1, side := TradeSide.long, exitTime := some 1,
     exitPrice := some 2, profit := some 2, profitPercent := some 1 },
   { entryTime := 2, entryPrice := 1, side := TradeSide.long, exitTime := some 3,
     exitPrice := some 0, profit := some (-2), profitPercent := some (-1) },
   { entryTime := 4, entryPrice := 1, side := TradeSide.long, exitTime := some 5,
     exitPrice := some 1, profit := some 0, profitPercent := some 0 }]

/-- C2 witness: the result arithmetic at the concrete three-trade ledger. -/
theorem calculateResults_arithmetic_witness :
    (calculateResults sampleLedger "KRW-BTC" "always" 0).netProfit =
      (sampleLedger.map (fun t => t.profit.getD 0)).sum ∧
    (calculateResults sampleLedger "KRW-BTC" "always" 0).winningTrades =
      (sampleLedger.filter (fun t => 0 < t.profitPercent.getD 0)).length ∧
    (calculateResults sampleLedger "KRW-BTC" "always" 0).winRate =
      (if sampleLedger.length = 0 then 0
       else ((calculateResults sampleLedger "KRW-BTC" "always" 0).winningTrades : ℚ) /
         (sampleLedger.length : ℚ)) ∧
    (calculateResults sampleLedger "KRW-BTC" "always" 0).profitFactor =
      (if grossLossSpec sampleLedger = 0 then 0
       else grossProfitSpec sampleLedger / grossLossSpec sampleLedger) :=
  calculateResults_arithmetic sampleLedger "KRW-BTC" "always" 0 2 (by norm_num)
    (by intro t ht; fin_cases ht <;> norm_num [sampleLedger])

/-! ## C6 — high-water mark and drawdown over the walk

`highWaterMark` and `drawdown` are non-decreasing and `drawdown` stays
non-negative; but the claimed upper bound `drawdown < 1` fails on the code:
two consecutive 99% losses drive equity negative and the update
`(highWaterMark - equity)/highWaterMark` then exceeds 1. -/

/-- The sequence of walk states visited while folding `walkStep` over the
inputs, starting from `s` (so the trajectory of the loop, initial state
included). -/
def walkStates (strategy : Strategy) (capital commission : ℚ) :
    WalkState → List (List Candle × Candle) → List WalkState
  | s, [] => [s]
  | s, p :: rest =>
      s :: walkStates strategy capital commission
        (walkStep strategy capital commission s p.1 p.2) rest

/-- The trajectory of one run's candle loop. -/
def walkTrajectory (strategy : Strategy) (capital commission : ℚ)
    (candles : List Candle) : List WalkState :=
  walkStates strategy capital commission (initWalkState capital) (walkInputs candles)

/-- One loop iteration never decreases the high-water mark or the drawdown. -/
theorem walkStep_monotone (strategy : Strategy) (capital commission : ℚ)
    (s : WalkState) (lb : List Candle) (c : Candle) :
    s.highWaterMark ≤ (walkStep strategy capital commission s lb c).highWaterMark ∧
    s.drawdown ≤ (walkStep strategy capital commission s lb c).drawdown := by
  cases h : s.currentTrade with
  | none =>
      simp only [walkStep, h]
      split <;> simp
  | some t =>
      simp only [walkStep, h]
      split
      · split
        · refine ⟨?_, ?_⟩
          · dsimp only
            split_ifs with hw
            · exact le_of_lt hw
            · exact le_refl _
          · dsimp only
            split_ifs with hw hd
            · exact le_refl _
            · exact le_of_lt hd
            · exact le_refl _
        · exact ⟨le_refl _, le_refl _⟩
      · exact ⟨le_refl _, le_refl _⟩

/-- A trajectory starts with its start state. -/
theorem walkStates_head? (strategy : Strategy) (capital commission : ℚ)
    (s : WalkState) (inputs : List (List Candle × Candle)) :
    (walkStates strategy capital commission s inputs).head? = some s := by
  cases inputs <;> simp [walkStates]

/-- Along any trajectory, consecutive states have non-decreasing
`highWaterMark` and `drawdown`, every state's `drawdown` stays at least the
start state's, and the fold's final state is on the trajectory. -/
theorem walkStates_chain (strategy : Strategy) (capital commission : ℚ)
    (inputs : List (List Candle × Candle)) (s : WalkState) :
    List.Chain' (fun a b => a.highWaterMark ≤ b.highWaterMark ∧ a.drawdown ≤ b.drawdown)
      (walkStates strategy capital commission s inputs) ∧
    (∀ x ∈ walkStates strategy capital commission s inputs, s.drawdown ≤ x.drawdown) ∧
    (inputs.foldl (fun s p => walkStep strategy capital commission s p.1 p.2) s) ∈
      walkStates strategy capital commission s inputs := by
  induction inputs generalizing s with
  | nil =>
      refine ⟨by simp [walkStates], ?_, by simp [walkStates]⟩
      intro x hx
      simp only [walkStates, List.mem_singleton] at hx
      rw [hx]
  | cons p rest ih =>
      obtain ⟨ihchain, ihdd, ihmem⟩ := ih (walkStep strategy capital commission s p.1 p.2)
      have hstep := walkStep_monotone strategy capital commission s p.1 p.2
      refine ⟨?_, ?_, ?_⟩
      · rw [walkStates, List.chain'_cons']
        refine ⟨?_, ihchain⟩
        intro y hy
        rw [walkStates_head?] at hy
        cases hy
        exact hstep
      · intro x hx
        rw [walkStates, List.mem_cons] at hx
        rcases hx with hx | hx
        · rw [hx]
        · exact le_trans hstep.2 (ihdd x hx)
      · rw [walkStates, List.foldl_cons]
        exact List.mem_cons_of_mem _ ihmem

/-- C6 (amended): over every walk, `highWaterMark` and `drawdown` are
non-decreasing and `drawdown` is always non-negative (the run's final state
being the trajectory's last point); but `drawdown` is not bounded below 1 —
see the counterexample, where it reaches 99/50. -/
theorem runWalk_drawdown_monotone (strategy : Strategy) (capital commission : ℚ)
    (candles : List Candle) :
    List.Chain' (fun a b => a.highWaterMark ≤ b.highWaterMark ∧ a.drawdown ≤ b.drawdown)
      (walkTrajectory strategy capital commission candles) ∧
    (∀ x ∈ walkTrajectory strategy capital commission candles, 0 ≤ x.drawdown) ∧
    runWalk strategy capital commission candles ∈
      walkTrajectory strategy capital commission candles := by
  obtain ⟨hchain, hdd, hmem⟩ :=
    walkStates_chain strategy capital commission (walkInputs candles) (initWalkState capital)
  exact ⟨hchain, fun x hx => hdd x hx, hmem⟩

/-- C6 counterexample: with the always-enter/always-exit strategy on
`crashCandles` (capital 100, commission 0), the walk's final drawdown is
99/50 — drawdown does NOT always lie in `[0, 1)`. -/
theorem runWalk_drawdown_reaches_one :
    (runWalk alwaysStrategy 100 0 crashCandles).drawdown = 99 / 50 ∧
    ¬ (runWalk alwaysStrategy 100 0 crashCandles).drawdown < 1 := by
  constructor <;>
    norm_num [runWalk, walkInputs, crashCandles, lookbackPeriod, initWalkState, walkStep,
      handleEntry, handleExit, alwaysStrategy, constCandle, lookbackCandlesAt, jsSlice,
      List.range', List.getD, List.getElem_append_right, List.length_replicate]

/-! ## C1 — behavior on missing, empty and too-short data

`loadCandleData` throws only when the load fails or yields an empty list; a
non-empty sequence no longer than the lookback window sails through, the loop
body never runs, and `runBacktest` silently returns a zero-value result. -/

/-- With no more candles than the lookback window, the candle loop has no
iterations. -/
theorem walkInputs_eq_nil (candles : List Candle)
    (hshort : candles.length ≤ lookbackPeriod) : walkInputs candles = [] := by
  have : candles.length - lookbackPeriod = 0 := by omega
  simp [walkInputs, this]

/-- C1 (amended): when the load yields candles and the sequence is no longer
than the lookback window, `runBacktest` fails (with the generic no-data error,
not a typed insufficient-data error carrying lengths) only in the empty case;
for a non-empty such sequence it does not fail at all — it silently returns
the zero-value `BacktestResult` with no trades. -/
theorem runBacktest_short_data (strategy : Strategy) (market : String) (interval : Nat)
    (capital commission : ℚ) (store : CandleStore) (candles : List Candle)
    (hload : loadCandles store market interval = Except.ok candles)
    (hshort : candles.length ≤ lookbackPeriod) :
    (candles = [] →
      runBacktest strategy market interval capital commission store =
        Except.error BacktestError.noData) ∧
    (candles ≠ [] →
      runBacktest strategy market interval capital commission store =
        Except.ok
          { market := market, strategyName := strategy.name, totalTrades := 0,
            winningTrades := 0, losingTrades := 0, winRate := 0, profitFactor := 0,
            netProfit := 0, maxDrawdown := 0, trades := [] }) := by
  constructor
  · intro hnil
    simp [runBacktest, loadCandleData, hload, hnil]
  · intro hne
    have hwalk : runWalk strategy capital commission candles = initWalkState capital := by
      rw [runWalk, walkInputs_eq_nil candles hshort, List.foldl_nil]
    simp only [runBacktest, loadCandleData, hload, List.isEmpty_eq_true, if_neg hne, hwalk]
    simp [calculateResults, initWalkState]

/-- C1 witness: at the one-candle store, the empty branch is vacuous and the
non-empty branch returns the zero-value result. -/
theorem runBacktest_short_data_witness :
    ([sampleCandle] = [] →
      runBacktest alwaysStrategy "KRW-BTC" 1 100 0 singleCandleStore =
        Except.error BacktestError.noData) ∧
    ([sampleCandle] ≠ [] →
      runBacktest alwaysStrategy "KRW-BTC" 1 100 0 singleCandleStore =
        Except.ok
          { market := "KRW-BTC", strategyName := alwaysStrategy.name, totalTrades := 0,
            winningTrades := 0, losingTrades := 0, winRate := 0, profitFactor := 0,
            netProfit := 0, maxDrawdown := 0, trades := [] }) :=
  runBacktest_short_data alwaysStrategy "KRW-BTC" 1 100 0 singleCandleStore
    [sampleCandle] rfl (by simp [lookbackPeriod])

/-- C1 counterexample: one stored candle is shorter than the lookback window,
yet `runBacktest` does not fail — it returns a zero-value `BacktestResult`. -/
theorem runBacktest_short_data_succeeds :
    runBacktest alwaysStrategy "KRW-BTC" 1 100 0 singleCandleStore =
      Except.ok
        { market := "KRW-BTC", strategyName := "always", totalTrades := 0,
          winningTrades := 0, losingTrades := 0, winRate := 0, profitFactor := 0,
          netProfit := 0, maxDrawdown := 0, trades := [] } := by
  decide

/-! ## C9 — an unclosed open position is discarded -/

/-- Folding `walkStep` preserves: every ledger entry is a closed trade, the
open slot (if filled) holds a trade with no exit yet, and equity equals the
initial capital plus the ledger's summed profits. -/
theorem foldl_walkStep_closed (strategy : Strategy) (capital commission : ℚ)
    (inputs : List (List Candle × Candle)) (s : WalkState)
    (h1 : ∀ t ∈ s.trades, t.exitTime.isSome = true)
    (h2 : ∀ t, s.currentTrade = some t → t.exitTime = none)
    (h3 : s.equity = capital + (s.trades.map (fun t => t.profit.getD 0)).sum) :
    (∀ t ∈ (inputs.foldl (fun s p => walkStep strategy capital commission s p.1 p.2) s).trades,
      t.exitTime.isSome = true) ∧
    (∀ t, (inputs.foldl (fun s p => walkStep strategy capital commission s p.1 p.2)
        s).currentTrade = some t → t.exitTime = none) ∧
    (inputs.foldl (fun s p => walkStep strategy capital commission s p.1 p.2) s).equity =
      capital + ((inputs.foldl (fun s p => walkStep strategy capital commission s p.1 p.2)
        s).trades.map (fun t => t.profit.getD 0)).sum := by
  induction inputs generalizing s with
  | nil => exact ⟨h1, h2, h3⟩
  | cons p rest ih =>
      rw [List.foldl_cons]
      refine ih (walkStep strategy capital commission s p.1 p.2) ?_ ?_ ?_
      all_goals (
        cases h : s.currentTrade with
        | none =>
            simp only [walkStep, h]
            split
            · first
                | exact h1
                | (intro t ht; cases ht; rfl)
                | exact h3
            · first
                | exact h1
                | (intro t ht; rw [h] at ht; cases ht)
                | exact h3
        | some u =>
            simp only [walkStep, h]
            split
            · split
              · first
                  | (intro t ht
                     rcases List.mem_append.mp ht with hmem | hmem
                     · exact h1 t hmem
                     · rw [List.mem_singleton.mp hmem]; rfl)
                  | (intro t ht; cases ht)
                  | (dsimp only
                     rw [h3, List.map_append, List.sum_append]
                     simp [add_assoc])
              · first
                  | exact h1
                  | (intro t ht; rw [h] at ht; cases ht; exact h2 u h)
                  | exact h3
            · first
                | exact h1
                | (intro t ht; rw [h] at ht; cases ht; exact h2 u h)
                | exact h3)

/-- C9: for every run, the result's ledger holds only closed trades; when the
run ends with a position still open, that trade has no exit data, is not in
the ledger, and contributed nothing — the final equity is the capital plus
exactly the closed trades' profits, and the reduced result's `netProfit` and
`totalTrades` are computed from the closed trades alone. -/
theorem runWalk_discards_open_trade (strategy : Strategy) (capital commission : ℚ)
    (candles : List Candle) (market : String) :
    (∀ t ∈ (runWalk strategy capital commission candles).trades, t.exitTime.isSome = true) ∧
    (∀ t, (runWalk strategy capital commission candles).currentTrade = some t →
      t.exitTime = none ∧ t ∉ (runWalk strategy capital commission candles).trades) ∧
    (runWalk strategy capital commission candles).equity =
      capital + ((runWalk strategy capital commission candles).trades.map
        (fun t => t.profit.getD 0)).sum ∧
    (calculateResults (runWalk strategy capital commission candles).trades market
        strategy.name (runWalk strategy capital commission candles).drawdown).netProfit =
      ((runWalk strategy capital commission candles).trades.map
        (fun t => t.profit.getD 0)).sum ∧
    (calculateResults (runWalk strategy capital commission candles).trades market
        strategy.name (runWalk strategy capital commission candles).drawdown).totalTrades =
      (runWalk strategy capital commission candles).trades.length := by
  obtain ⟨hclosed, hopen, hequity⟩ :=
    foldl_walkStep_closed strategy capital commission (walkInputs candles)
      (initWalkState capital) (by intro t ht; cases ht) (by intro t ht; cases ht)
      (by simp [initWalkState])
  refine ⟨hclosed, ?_, hequity, rfl, rfl⟩
  intro t ht
  refine ⟨hopen t ht, fun hmem => ?_⟩
  exact Option.not_isSome_iff_eq_none.mpr (hopen t ht) (hclosed t hmem)

end AutoTrader
